import Mathlib

/-!
Verification development for the highlight detection engine of the
TikTok_Videos repository (src/pipeline/highlight_detector.py, src/config.py).

Embedding conventions:
* Python floats are modelled as rationals (all arithmetic in the source is
  exact on the inputs considered; no float-specific behaviour is claimed).
* Python strings are modelled as lists of Unicode code points (PyStr).
* The two signal adapters that shell out to external processes
  (compute_audio_energy, detect_scene_changes) perform I/O; their outputs
  (times, rms, scene_changes) are inputs of the embedded find_highlights,
  exactly as they are data inputs of the scoring pipeline in the source.
* A run that raises NoHighlightsError is modelled as the value none.
-/

/-- Python str, as a list of Unicode code points. -/
abbrev PyStr := List Nat

/-- Convert a Lean string literal to a PyStr. -/
def s2l (s : String) : PyStr := s.data.map Char.toNat

/-- Code point of the apostrophe character. -/
def aposC : Nat := 39

/-- Python str.lower on one code point (ASCII range, all that the inputs use). -/
def pyLowerChar (c : Nat) : Nat := if 65 ≤ c ∧ c ≤ 90 then c + 32 else c

/-- Python str.lower. -/
def pyLower (s : PyStr) : PyStr := s.map pyLowerChar

/-- Python str.strip(chars): remove leading and trailing characters in chars. -/
def pyStrip (chars : List Nat) (s : PyStr) : PyStr :=
  ((s.dropWhile (· ∈ chars)).reverse.dropWhile (· ∈ chars)).reverse

/-- Whitespace code points stripped by Python str.strip() with no argument:
space, tab, newline, carriage return, vertical tab, form feed. -/
def wsChars : List Nat := [32, 9, 10, 13, 11, 12]

/-- The characters in the Python literal ".,!?;:\"+quote+apostrophe used by
score_transcript_keywords: full stop, comma, bang, question mark, semicolon,
colon, double quote, apostrophe. -/
def punctChars : List Nat := [46, 44, 33, 63, 59, 58, 34, aposC]

/-- word.word.lower().strip(".,!?;:...") as applied to each transcript word. -/
def normWord (w : PyStr) : PyStr := pyStrip punctChars (pyLower w)

/-- k.lower().strip() as applied to each configured keyword. -/
def normKeyword (k : PyStr) : PyStr := pyStrip wsChars (pyLower k)

/-- WordSegment produced by the transcriber: fields word, start, end.
The Python field end is called stop here because end is reserved in Lean. -/
structure Word where
  word : PyStr
  start : ℚ
  stop : ℚ
deriving DecidableEq

/-- Chapter marker: dict with keys title, start_time, end_time. -/
structure Chapter where
  title : PyStr
  start_time : ℚ
  end_time : ℚ
deriving DecidableEq

/-- ClipCandidate dataclass: start, end, score, reason.
The Python field end is called stop here because end is reserved in Lean. -/
structure ClipCandidate where
  start : ℚ
  stop : ℚ
  score : ℚ
  reason : PyStr
deriving DecidableEq

/-- The fields of Config (src/config.py) read by the highlight detector.
I/O-only fields (bot token, paths, whisper settings) are omitted. -/
structure Config where
  max_clips_per_video : ℕ
  clip_min_duration : ℚ
  clip_max_duration : ℚ
  audio_energy_weight : ℚ
  keyword_weight : ℚ
  scene_change_weight : ℚ
  tiktok_keywords : List PyStr
deriving DecidableEq

/-- Default tiktok_keywords of Config (src/config.py); the two keywords
with an apostrophe are assembled from code points. -/
def defaultKeywords : List PyStr :=
  [s2l "wait", s2l "listen", s2l "actually", s2l "insane", s2l "crazy", s2l "no way",
   s2l "what", s2l "omg", s2l "wow", s2l "legendary", s2l "fail", s2l "win", s2l "sick",
   s2l "bro", s2l "literally", s2l "shocking", s2l "unbelievable", s2l "secret",
   s2l "wait for it", s2l "you won" ++ [aposC] ++ s2l "t believe", s2l "insane",
   s2l "fire", s2l "goat",
   s2l "clutch", s2l "let" ++ [aposC] ++ s2l "s go", s2l "no", s2l "yes", s2l "really",
   s2l "seriously",
   s2l "warte", s2l "krass", s2l "unfassbar", s2l "unmöglich", s2l "ehrlich"]

/-- Config with the defaults of src/config.py. -/
def cfgDefault : Config :=
  { max_clips_per_video := 3
    clip_min_duration := 15
    clip_max_duration := 60
    audio_energy_weight := 0.4
    keyword_weight := 0.3
    scene_change_weight := 0.3
    tiktok_keywords := defaultKeywords }

/-- Ascending insertion into a sorted list of rationals. -/
def insertAsc (x : ℚ) : List ℚ → List ℚ
  | [] => [x]
  | y :: ys => if x ≤ y then x :: y :: ys else y :: insertAsc x ys

/-- Ascending sort of rationals (np.median only needs the sorted values). -/
def sortAsc : List ℚ → List ℚ
  | [] => []
  | x :: xs => insertAsc x (sortAsc xs)

/-- np.median: middle element of the sorted list, or the mean of the two
middle elements for even length. -/
def npMedian (l : List ℚ) : ℚ :=
  let sorted := sortAsc l
  let n := l.length
  if n % 2 = 1 then sorted.getD (n / 2) 0
  else (sorted.getD (n / 2 - 1) 0 + sorted.getD (n / 2) 0) / 2

/-- find_energy_peaks: timestamps where rms exceeds 1.8 times the median,
with a minimum gap between consecutive returned peaks. -/
def find_energy_peaks (times rms : List ℚ) (min_gap_s : ℚ) : List ℚ :=
  if rms = [] then []
  else
    let median_rms := npMedian rms
    if median_rms = 0 then []
    else
      let threshold := median_rms * 1.8
      (times.zip rms).foldl (fun peak_times tr =>
        if threshold < tr.2 ∧ (peak_times = [] ∨ min_gap_s ≤ tr.1 - peak_times.getLastD 0)
        then peak_times ++ [tr.1] else peak_times) []

/-- Python enumerate(words). -/
def pyEnum {α : Type} (l : List α) : List (ℕ × α) := (List.range l.length).zip l

/-- Python slice l[a:b] for natural indices. -/
def pySlice {α : Type} (l : List α) (a b : ℕ) : List α := (l.drop a).take (b - a)

/-- score_transcript_keywords: for each transcript word whose normalized text
is a configured keyword, emit the context window of ~15 surrounding words with
its keyword density. -/
def score_transcript_keywords (words : List Word) (keywords : List PyStr) :
    List (ℚ × ℚ × ℚ) :=
  if words = [] then []
  else
    let keyword_set := keywords.map normKeyword
    (pyEnum words).filterMap (fun iw =>
      if normWord iw.2.word ∈ keyword_set then
        let ctx_start := iw.1 - 5
        let ctx_end := min (words.length - 1) (iw.1 + 10)
        match pySlice words ctx_start ctx_end with
        | [] => none
        | w0 :: rest =>
          let window_words := w0 :: rest
          let kw_count :=
            (window_words.filter (fun w => decide (normWord w.word ∈ keyword_set))).length
          some (w0.start, (window_words.getLastD w0).stop,
                (kw_count : ℚ) / (window_words.length : ℚ))
      else none)

/-- Global max of the rms list, 1.0 when the list is empty. -/
def globalMaxRms (rms : List ℚ) : ℚ :=
  match rms with
  | [] => 1
  | x :: xs => xs.foldl max x

/-- Global min of the rms list, 0.0 when the list is empty. -/
def globalMinRms (rms : List ℚ) : ℚ :=
  match rms with
  | [] => 0
  | x :: xs => xs.foldl min x

/-- rms_range = global_max_rms - global_min_rms or 1.0: the Python or
replaces a zero range by 1.0 before any division. -/
def rmsRange (rms : List ℚ) : ℚ :=
  let d := globalMaxRms rms - globalMinRms rms
  if d = 0 then 1 else d

/-- Energy score of the window [pos, stop): mean of the min-max-normalized
rms samples whose timestamp falls in the window; 0 with no samples. -/
def energyScore (times rms : List ℚ) (pos stop : ℚ) : ℚ :=
  if times = [] then 0
  else
    let window_rms := ((times.zip rms).filter
      (fun tr => decide (pos ≤ tr.1 ∧ tr.1 < stop))).map (fun tr => tr.2)
    if window_rms = [] then 0
    else ((window_rms.map (fun r => (r - globalMinRms rms) / rmsRange rms)).sum) /
      (window_rms.length : ℚ)

/-- Maximum density among keyword regions fully contained in [pos, stop]. -/
def kwRawScore (keyword_regions : List (ℚ × ℚ × ℚ)) (pos stop : ℚ) : ℚ :=
  keyword_regions.foldl
    (fun acc r => if pos ≤ r.1 ∧ r.2.1 ≤ stop then max acc r.2.2 else acc) 0

/-- Scene score: min(1, number of scene cuts in the window / 2). -/
def sceneScore (scene_changes : List ℚ) (pos stop : ℚ) : ℚ :=
  min 1 (((scene_changes.filter (fun t => decide (pos ≤ t ∧ t < stop))).length : ℚ) / 2)

/-- Reason string: tags for each signal above its fixed threshold
(energy 0.6, keyword 0.3, scene 0.5), joined by a comma, or multi-signal. -/
def windowReason (e k s : ℚ) : PyStr :=
  let parts := (if 0.6 < e then [s2l "high energy"] else []) ++
               (if 0.3 < k then [s2l "keyword"] else []) ++
               (if 0.5 < s then [s2l "scene change"] else [])
  if parts = [] then s2l "multi-signal" else List.intercalate (s2l ", ") parts

/-- One scored window candidate at position pos with the given size. -/
def mkWindowCandidate (keyword_regions : List (ℚ × ℚ × ℚ))
    (scene_changes times rms : List ℚ) (cfg : Config) (size pos : ℚ) : ClipCandidate :=
  let stop := pos + size
  let e := energyScore times rms pos stop
  let k := min 1 (kwRawScore keyword_regions pos stop * 3)
  let s := sceneScore scene_changes pos stop
  { start := pos
    stop := stop
    score := cfg.audio_energy_weight * e + cfg.keyword_weight * k +
             cfg.scene_change_weight * s
    reason := windowReason e k s }

/-- Python floor division a // b. -/
def pyFloorDiv (a b : ℚ) : ℚ := ((⌊a / b⌋ : ℤ) : ℚ)

/-- The three window sizes scanned by _score_windows:
[min_dur, (min_dur + max_dur) // 2, max_dur] (note the floor division). -/
def windowSizes (mn mx : ℚ) : List ℚ := [mn, pyFloorDiv (mn + mx) 2, mx]

/-- The while loop of _score_windows over one window size: emit a candidate
at pos and step by 5 seconds while the window fits inside the duration.
The fuel argument only bounds the recursion; fuelFor below always provides
enough for the loop to run to its natural exit. -/
def scanFrom (f : ℚ → ClipCandidate) (size d : ℚ) : ℕ → ℚ → List ClipCandidate
  | 0, _ => []
  | fuel + 1, pos =>
    if pos + size ≤ d then f pos :: scanFrom f size d fuel (pos + 5) else []

/-- Enough fuel for the scan loop: the loop from position 0 runs at most
floor((d - size)/5) + 1 times, which is at most ceil(d - size) + 1. -/
def fuelFor (size d : ℚ) : ℕ := (⌈d - size⌉).toNat + 1

/-- _score_windows: brute-force scan over the three window sizes, 5-second
step; the energy_peaks parameter is accepted but never read in the body,
exactly as in the source. -/
def _score_windows (d : ℚ) (energy_peaks : List ℚ)
    (keyword_regions : List (ℚ × ℚ × ℚ)) (scene_changes times rms : List ℚ)
    (mn mx : ℚ) (cfg : Config) : List ClipCandidate :=
  (windowSizes mn mx).flatMap (fun size =>
    scanFrom (fun pos => mkWindowCandidate keyword_regions scene_changes times rms cfg size pos)
      size d (fuelFor size d) 0)

/-- Stable descending insertion by score: a candidate is placed before the
first already-placed candidate whose score is at most its own, which keeps
the original order among equal scores. -/
def insertDesc (c : ClipCandidate) : List ClipCandidate → List ClipCandidate
  | [] => [c]
  | x :: xs => if x.score ≤ c.score then c :: x :: xs else x :: insertDesc c xs

/-- Stable sort by score descending: extensionally the semantics of the
Python stable list.sort(key=score, reverse=True). -/
def sortByScoreDesc : List ClipCandidate → List ClipCandidate
  | [] => []
  | x :: xs => insertDesc x (sortByScoreDesc xs)

/-- The overlap test of _select_top_clips: the newcomer is rejected when its
overlap with some already-selected clip exceeds half of its own duration. -/
def overlapsPrev (candidate : ClipCandidate) (selected : List ClipCandidate) : Bool :=
  selected.any (fun sel =>
    let overlap_start := max candidate.start sel.start
    let overlap_end := min candidate.stop sel.stop
    decide (overlap_start < overlap_end ∧
      (1/2) * (candidate.stop - candidate.start) < overlap_end - overlap_start))

/-- The greedy acceptance loop of _select_top_clips, appending accepted
candidates and breaking once max_clips have been selected. -/
def selectLoop : List ClipCandidate → List ClipCandidate → ℕ → List ClipCandidate
  | [], selected, _ => selected
  | c :: rest, selected, maxc =>
    let selected' := if overlapsPrev c selected then selected else selected ++ [c]
    if maxc ≤ selected'.length then selected' else selectLoop rest selected' maxc

/-- _select_top_clips: keep candidates with duration inside the bounds,
stable-sort by score descending, then select greedily. -/
def _select_top_clips (candidates : List ClipCandidate) (maxc : ℕ) (mn mx : ℚ) :
    List ClipCandidate :=
  let valid := candidates.filter
    (fun c => decide (mn ≤ c.stop - c.start ∧ c.stop - c.start ≤ mx))
  selectLoop (sortByScoreDesc valid) [] maxc

/-- The snapping loop of _refine_boundaries: scan all words, moving the
running value to a boundary b whenever its distance to the current running
value is below the best distance so far and at most 2 seconds. Note that
the source compares against the running (already snapped) value, not the
original one. -/
def snapTo (target : ℚ) (boundaries : List ℚ) : ℚ :=
  (boundaries.foldl (fun acc b =>
      let diff := |b - acc.1|
      let better : Bool := match acc.2 with
        | none => true
        | some best => decide (diff < best)
      if better = true ∧ diff ≤ 2 then (b, some diff) else acc)
    (target, (none : Option ℚ))).1

/-- _refine_boundaries: snap start to word starts and end to word ends, then
re-clamp the duration into [min_dur, max_dur]. -/
def _refine_boundaries (clip : ClipCandidate) (words : List Word) (mn mx : ℚ) :
    ClipCandidate :=
  if words = [] then clip
  else
    let start := snapTo clip.start (words.map (fun w => w.start))
    let stop0 := snapTo clip.stop (words.map (fun w => w.stop))
    let dur := stop0 - start
    let stop := if dur < mn then start + mn else if mx < dur then start + mx else stop0
    { start := start, stop := stop, score := clip.score, reason := clip.reason }

/-- The chapter clips of the fast path: chapters of valid duration, in input
order, each with score 1.0 and reason Chapter: plus the first 40 characters
of the title. -/
def chapterClipsOf (chapters : List Chapter) (cfg : Config) : List ClipCandidate :=
  (chapters.filter (fun ch =>
      decide (cfg.clip_min_duration ≤ ch.end_time - ch.start_time ∧
              ch.end_time - ch.start_time ≤ cfg.clip_max_duration))).map
    (fun ch =>
      { start := ch.start_time, stop := ch.end_time, score := 1,
        reason := s2l "Chapter: " ++ ch.title.take 40 })

/-- video_duration: end of the last word, or 120 seconds without words. -/
def videoDuration (words : List Word) : ℚ :=
  match words.getLast? with
  | some w => w.stop
  | none => 120

/-- The heuristic branch of find_highlights: gather signals, score windows,
raise (none) when the pool is empty, otherwise select and refine. -/
def heuristicClips (times rms scene_changes : List ℚ) (words : List Word)
    (cfg : Config) : Option (List ClipCandidate) :=
  let energy_peaks := find_energy_peaks times rms (cfg.clip_max_duration * 0.5)
  let keyword_regions := score_transcript_keywords words cfg.tiktok_keywords
  let candidates := _score_windows (videoDuration words) energy_peaks keyword_regions
    scene_changes times rms cfg.clip_min_duration cfg.clip_max_duration cfg
  if candidates = [] then none
  else some ((_select_top_clips candidates cfg.max_clips_per_video
      cfg.clip_min_duration cfg.clip_max_duration).map
    (fun c => _refine_boundaries c words cfg.clip_min_duration cfg.clip_max_duration))

/-- find_highlights. The outputs of the two I/O adapters (audio energy curve
times/rms, scene change timestamps) are inputs here; none models a raised
NoHighlightsError. The Python code takes the fast path when the chapter list
is truthy and the filtered chapter clips reach max_clips_per_video. -/
def find_highlights (times rms scene_changes : List ℚ) (words : List Word)
    (chapters : List Chapter) (cfg : Config) : Option (List ClipCandidate) :=
  if chapters ≠ [] ∧ cfg.max_clips_per_video ≤ (chapterClipsOf chapters cfg).length
  then some ((chapterClipsOf chapters cfg).take cfg.max_clips_per_video)
  else heuristicClips times rms scene_changes words cfg

/-- Overlap duration of two candidate windows (0 when disjoint). -/
def overlapDur (a b : ClipCandidate) : ℚ :=
  max 0 (min a.stop b.stop - max a.start b.start)

/-- The number of loop iterations of the window scan of one size starting at
position pos: the positions pos, pos+5, pos+10, ... with the window inside
[0, d]. -/
def stepsFrom (size d pos : ℚ) : ℕ :=
  if pos + size ≤ d then (⌊(d - size - pos) / 5⌋ + 1).toNat else 0

/-- Number of scanned start positions for one window size, following the
spec wording: positions 0, 5, 10, ... for as long as the window fits. -/
def specNumSteps (size d : ℚ) : ℕ :=
  if size ≤ d then (⌊(d - size) / 5⌋ + 1).toNat else 0

/-- The scanned start positions for one window size, in scan order,
following the spec wording. -/
def specPositions (size d : ℚ) : List ℚ :=
  (List.range (specNumSteps size d)).map (fun (k : ℕ) => 5 * (k : ℚ))

/-- The window scan as the spec describes it: for the three window sizes in
order, all start positions stepping by 5 seconds from 0 while the window
fits in the duration, each scored by the shared per-window scorer. -/
def specScoreWindows (d : ℚ) (keyword_regions : List (ℚ × ℚ × ℚ))
    (scene_changes times rms : List ℚ) (mn mx : ℚ) (cfg : Config) :
    List ClipCandidate :=
  (windowSizes mn mx).flatMap (fun size =>
    (specPositions size d).map (fun pos =>
      mkWindowCandidate keyword_regions scene_changes times rms cfg size pos))

/-- The pairwise overlap contract of the candidate selector: the overlap of
an earlier-ranked candidate a with a later-ranked candidate b is at most
half of the duration of b. -/
def overlapRule (a b : ClipCandidate) : Prop :=
  overlapDur a b ≤ (1/2) * (b.stop - b.start)

/-- Transcript words of the run refuting claim C2. -/
def wordsC2 : List Word := [⟨s2l "a", 2, 12⟩, ⟨s2l "b", 8, 20⟩, ⟨s2l "c", 20, 30⟩]

/-- Configuration of the run refuting claim C2: a valid configuration with
clip_min_duration = clip_max_duration = 15 and no keywords. -/
def cfgC2 : Config :=
  { max_clips_per_video := 2
    clip_min_duration := 15
    clip_max_duration := 15
    audio_energy_weight := 0.4
    keyword_weight := 0.3
    scene_change_weight := 0.3
    tiktok_keywords := [] }

/-- The two clips returned by find_highlights on the C2 run. -/
def clipC2a : ClipCandidate := ⟨2, 17, 3/10, s2l "scene change"⟩

/-- Second (later-ranked) clip returned by find_highlights on the C2 run. -/
def clipC2b : ClipCandidate := ⟨8, 23, 3/20, s2l "multi-signal"⟩

theorem mem_insertDesc {x c : ClipCandidate} {l : List ClipCandidate} :
    x ∈ insertDesc c l ↔ x = c ∨ x ∈ l := by
  induction l with
  | nil => simp [insertDesc]
  | cons y ys ih =>
    simp only [insertDesc]
    split
    · simp
    · simp only [List.mem_cons, ih]
      tauto

theorem mem_sortByScoreDesc {x : ClipCandidate} {l : List ClipCandidate} :
    x ∈ sortByScoreDesc l ↔ x ∈ l := by
  induction l with
  | nil => simp [sortByScoreDesc]
  | cons y ys ih => simp [sortByScoreDesc, mem_insertDesc, ih]

theorem mem_selectLoop {c : ClipCandidate} :
    ∀ {pending sel : List ClipCandidate} {maxc : ℕ},
      c ∈ selectLoop pending sel maxc → c ∈ sel ∨ c ∈ pending := by
  intro pending
  induction pending with
  | nil => intro sel maxc h; exact Or.inl h
  | cons p rest ih =>
    intro sel maxc h
    simp only [selectLoop] at h
    split at h
    · split at h
      · left; exact h
      · rcases ih h with h' | h'
        · left; exact h'
        · right; exact List.mem_cons_of_mem _ h'
    · split at h
      · rcases List.mem_append.mp h with h' | h'
        · left; exact h'
        · right; exact List.mem_cons.mpr (Or.inl (List.mem_singleton.mp h'))
      · rcases ih h with h' | h'
        · rcases List.mem_append.mp h' with h'' | h''
          · left; exact h''
          · right; exact List.mem_cons.mpr (Or.inl (List.mem_singleton.mp h''))
        · right; exact List.mem_cons_of_mem _ h'

theorem mem_select_top_clips {c : ClipCandidate} {cands : List ClipCandidate}
    {maxc : ℕ} {mn mx : ℚ} (h : c ∈ _select_top_clips cands maxc mn mx) :
    mn ≤ c.stop - c.start ∧ c.stop - c.start ≤ mx := by
  simp only [_select_top_clips] at h
  rcases mem_selectLoop h with h' | h'
  · simp at h'
  · have := (List.mem_filter.mp (mem_sortByScoreDesc.mp h')).2
    exact of_decide_eq_true this

theorem refine_duration_bounds (clip : ClipCandidate) (words : List Word)
    (mn mx : ℚ) (hmm : mn ≤ mx)
    (hc : mn ≤ clip.stop - clip.start ∧ clip.stop - clip.start ≤ mx) :
    mn ≤ (_refine_boundaries clip words mn mx).stop -
         (_refine_boundaries clip words mn mx).start ∧
    (_refine_boundaries clip words mn mx).stop -
         (_refine_boundaries clip words mn mx).start ≤ mx := by
  simp only [_refine_boundaries]
  split
  · exact hc
  · dsimp only
    split_ifs with h1 h2
    · constructor <;> linarith
    · constructor <;> linarith
    · constructor <;> linarith

/-- C1: for every valid configuration (0 < clip_min_duration and
clip_min_duration ≤ clip_max_duration) and all inputs, every ClipCandidate
in a list returned by find_highlights has a duration between
clip_min_duration and clip_max_duration. Both return paths are covered:
chapter fast-path clips are duration-filtered, and heuristic clips are
duration-filtered by the selector and re-clamped by the refiner. -/
theorem C1_returned_durations_within_bounds
    (times rms scenes : List ℚ) (words : List Word) (chapters : List Chapter)
    (cfg : Config) (hmn : 0 < cfg.clip_min_duration)
    (hmm : cfg.clip_min_duration ≤ cfg.clip_max_duration)
    (res : List ClipCandidate)
    (hres : find_highlights times rms scenes words chapters cfg = some res) :
    ∀ c ∈ res, cfg.clip_min_duration ≤ c.stop - c.start ∧
      c.stop - c.start ≤ cfg.clip_max_duration := by
  intro c hc
  simp only [find_highlights] at hres
  split at hres
  · injection hres with hres
    subst hres
    have hc' := List.mem_of_mem_take hc
    simp only [chapterClipsOf] at hc'
    obtain ⟨ch, hch, rfl⟩ := List.mem_map.mp hc'
    have hdur := of_decide_eq_true (List.mem_filter.mp hch).2
    exact ⟨hdur.1, hdur.2⟩
  · simp only [heuristicClips] at hres
    split at hres
    · exact absurd hres (by simp)
    · injection hres with hres
      subst hres
      obtain ⟨c', hc', rfl⟩ := List.mem_map.mp hc
      exact refine_duration_bounds c' words _ _ hmm (mem_select_top_clips hc')

/-- Witness for C1: a concrete chapter-fast-path run of find_highlights with
the valid configuration min = max = 15, instantiated at the first returned
clip, whose duration is 15. -/
theorem C1_witness :
    find_highlights [] [] [] []
        [⟨s2l "a", 0, 15⟩, ⟨s2l "b", 30, 45⟩] cfgC2 =
      some [⟨0, 15, 1, s2l "Chapter: a"⟩, ⟨30, 45, 1, s2l "Chapter: b"⟩] ∧
    (15 : ℚ) ≤ (15 : ℚ) - 0 ∧ (15 : ℚ) - 0 ≤ 15 := by
  constructor
  · with_unfolding_all rfl
  · exact C1_returned_durations_within_bounds [] [] [] []
      [⟨s2l "a", 0, 15⟩, ⟨s2l "b", 30, 45⟩] cfgC2
      (by norm_num [cfgC2]) (by norm_num [cfgC2]) _
      (by with_unfolding_all rfl) ⟨0, 15, 1, s2l "Chapter: a"⟩
      (by with_unfolding_all decide)

/-- C2 counterexample: a complete run of find_highlights (valid config,
min = max = 15, two clips requested) whose two returned clips, after
boundary refinement, overlap by 9 seconds while half of the later-ranked
clip duration is only 7.5 seconds. The pre-refinement windows [0,15] and
[10,25] obeyed the 50 percent rule; snapping their starts to word
boundaries (0 to 2 and 10 to 8) and re-clamping the durations made the
returned windows [2,17] and [8,23]. -/
theorem C2_counterexample :
    find_highlights [] [] [1, 2, 12] wordsC2 [] cfgC2 = some [clipC2a, clipC2b] ∧
    ¬ overlapRule clipC2a clipC2b := by
  constructor
  · with_unfolding_all rfl
  · simp only [overlapRule, overlapDur, clipC2a, clipC2b]
    norm_num

theorem selectLoop_pairwise {mn : ℚ} (hmn : 0 ≤ mn) :
    ∀ (pending sel : List ClipCandidate) (maxc : ℕ),
      (∀ c ∈ pending, mn ≤ c.stop - c.start) →
      sel.Pairwise overlapRule →
      (selectLoop pending sel maxc).Pairwise overlapRule := by
  intro pending
  induction pending with
  | nil => intro sel maxc _ hsel; exact hsel
  | cons p rest ih =>
    intro sel maxc hpend hsel
    have hpdur : mn ≤ p.stop - p.start := hpend p (List.mem_cons_self p rest)
    have hrest : ∀ c ∈ rest, mn ≤ c.stop - c.start :=
      fun c hc => hpend c (List.mem_cons_of_mem p hc)
    simp only [selectLoop]
    split
    · split
      · exact hsel
      · exact ih sel maxc hrest hsel
    · rename_i hov
      have hov' : overlapsPrev p sel = false := by
        revert hov; cases overlapsPrev p sel <;> simp
      have hnew : (sel ++ [p]).Pairwise overlapRule := by
        rw [List.pairwise_append]
        refine ⟨hsel, List.pairwise_singleton _ _, ?_⟩
        intro s hs b hb
        rw [List.mem_singleton] at hb
        subst hb
        have hsb := List.any_eq_false.mp hov' s hs
        simp only [decide_eq_true_eq] at hsb
        rw [not_and, not_lt] at hsb
        simp only [overlapRule, overlapDur]
        rcases le_or_lt (min s.stop b.stop - max s.start b.start) 0 with hle | hlt
        · rw [max_eq_left hle]
          linarith
        · have h1 : max b.start s.start < min b.stop s.stop := by
            rw [max_comm b.start s.start, min_comm b.stop s.stop]
            linarith
          have h2 := hsb h1
          rw [max_comm b.start s.start, min_comm b.stop s.stop] at h2
          rw [max_eq_right (le_of_lt hlt)]
          linarith
      split
      · exact hnew
      · exact ih (sel ++ [p]) maxc hrest hnew

/-- C2 amended: the 50 percent asymmetric-overlap rule (overlap of any pair
is at most half of the later-ranked candidate's own duration) holds for the
clips as selected by _select_top_clips, before boundary refinement; the
refiner can afterwards move boundaries and break the bound, as the
counterexample shows, and the chapter fast path never checks overlap. -/
theorem C2_selector_overlap_rule (cands : List ClipCandidate) (maxc : ℕ)
    (mn mx : ℚ) (hmn : 0 ≤ mn) :
    (_select_top_clips cands maxc mn mx).Pairwise overlapRule := by
  simp only [_select_top_clips]
  apply selectLoop_pairwise hmn
  · intro c hc
    exact (of_decide_eq_true (List.mem_filter.mp (mem_sortByScoreDesc.mp hc)).2).1
  · exact List.Pairwise.nil

/-- Witness for C2 amended: the selector output of the C2 run satisfies the
pairwise overlap rule (applied at mn = 15). -/
theorem C2_amended_witness :
    (0 : ℚ) ≤ 15 ∧
    (_select_top_clips (_score_windows 30 [] [] [1, 2, 12] [] [] 15 15 cfgC2)
        2 15 15).Pairwise overlapRule :=
  ⟨by norm_num,
   C2_selector_overlap_rule (_score_windows 30 [] [] [1, 2, 12] [] [] 15 15 cfgC2)
     2 15 15 (by norm_num)⟩

/-- C3 counterexample: with an empty word list, no chapters, and empty
energy and scene signals, find_highlights under the default configuration
does not raise NoHighlightsError: the total duration defaults to 120
seconds, the window scan therefore produces a non-empty zero-score pool,
and three clips are returned. -/
theorem C3_counterexample :
    find_highlights [] [] [] [] [] cfgDefault =
      some [⟨0, 15, 0, s2l "multi-signal"⟩, ⟨10, 25, 0, s2l "multi-signal"⟩,
            ⟨20, 35, 0, s2l "multi-signal"⟩] := by
  with_unfolding_all rfl

/-- C3 amended: on every run that does not return through the chapter fast
path, find_highlights raises NoHighlightsError (returns none) exactly when
the scored candidate pool is empty. (The empty-input scenario of the claim
does not raise: with no words the duration defaults to 120 seconds and the
pool is non-empty, as the counterexample shows.) -/
theorem C3_no_highlights_iff_empty_pool
    (times rms scenes : List ℚ) (words : List Word) (chapters : List Chapter)
    (cfg : Config)
    (hfp : ¬(chapters ≠ [] ∧
      cfg.max_clips_per_video ≤ (chapterClipsOf chapters cfg).length)) :
    (find_highlights times rms scenes words chapters cfg = none ↔
      _score_windows (videoDuration words)
        (find_energy_peaks times rms (cfg.clip_max_duration * 0.5))
        (score_transcript_keywords words cfg.tiktok_keywords)
        scenes times rms cfg.clip_min_duration cfg.clip_max_duration cfg = []) := by
  simp only [find_highlights, if_neg hfp, heuristicClips]
  split
  · rename_i h
    simp [h]
  · rename_i h
    simp [h]

/-- Witness for C3 amended: a run on a 10-second transcript (shorter than
clip_min_duration = 15, so no window fits and the pool is empty) raises
NoHighlightsError. -/
theorem C3_amended_witness :
    find_highlights [] [] [] [⟨s2l "hi", 0, 10⟩] [] cfgDefault = none :=
  (C3_no_highlights_iff_empty_pool [] [] [] [⟨s2l "hi", 0, 10⟩] [] cfgDefault
    (by simp)).mpr (by with_unfolding_all rfl)

/-- C4: evaluation exhibiting the non-idempotence of _refine_boundaries.
The candidate [10, 30] has its start on the second word's start, its end on
the second word's end, and duration 20 inside [15, 25]; yet refining moves
start to 9: the scan compares each word boundary against the running,
already-snapped value (the first word start 9 is adopted with distance 1,
after which the true boundary 10 is rejected because its distance to 9 is
not below 1), contradicting the stated idempotence and the function's own
nearest-boundary documentation. -/
theorem C4_refine_not_idempotent :
    _refine_boundaries ⟨10, 30, 1, []⟩
        [⟨s2l "a", 9, 19⟩, ⟨s2l "b", 10, 30⟩] 15 25 =
      ⟨9, 30, 1, []⟩ ∧
    ((9 : ℚ), (30 : ℚ)) ≠ ((10 : ℚ), (30 : ℚ)) := by
  constructor
  · with_unfolding_all rfl
  · simp

/-- C5: evaluation exhibiting that _refine_boundaries does not snap to the
word boundary nearest the original start. The candidate start is 10 and the
word starts are 9 (distance 1) and 10.5 (distance 0.5): the claimed and
documented nearest-boundary rule picks 10.5, but the scan first adopts 9
and then measures 10.5 against the updated value (distance 1.5), so the
returned start is 9. -/
theorem C5_refine_not_nearest :
    _refine_boundaries ⟨10, 25, 1, []⟩
        [⟨s2l "a", 9, 30⟩, ⟨s2l "b", 21/2, 31⟩] 15 16 =
      ⟨9, 25, 1, []⟩ ∧
    |(21 : ℚ)/2 - 10| < |(9 : ℚ) - 10| := by
  constructor
  · with_unfolding_all rfl
  · rw [show |(21 : ℚ)/2 - 10| = 1/2 by norm_num, show |(9 : ℚ) - 10| = 1 by norm_num]
    norm_num

/-- C9: the candidates produced by _score_windows do not depend on the
energy_peaks argument: the parameter is never read in the body, so any two
values of it yield identical output with all other inputs held fixed. -/
theorem C9_energy_peaks_independence (d : ℚ) (p1 p2 : List ℚ)
    (kw : List (ℚ × ℚ × ℚ)) (sc times rms : List ℚ) (mn mx : ℚ) (cfg : Config) :
    _score_windows d p1 kw sc times rms mn mx cfg =
    _score_windows d p2 kw sc times rms mn mx cfg := rfl

/-- C6: whenever at least max_clips_per_video chapters have duration inside
[clip_min_duration, clip_max_duration] (and the configured clip count is at
least 1, per the configuration surface maxClipCount in [1,5]),
find_highlights returns exactly the first max_clips_per_video such chapters
in input order, each as a ClipCandidate with score 1 and reason Chapter:
followed by the first 40 characters of the title — independently of the
words and of all adapter signals, which are never consulted. -/
theorem C6_chapter_fast_path
    (chapters : List Chapter) (cfg : Config)
    (hmax : 1 ≤ cfg.max_clips_per_video)
    (hcnt : cfg.max_clips_per_video ≤
      (chapters.filter (fun ch =>
        decide (cfg.clip_min_duration ≤ ch.end_time - ch.start_time ∧
                ch.end_time - ch.start_time ≤ cfg.clip_max_duration))).length) :
    ∀ (times rms scenes : List ℚ) (words : List Word),
      find_highlights times rms scenes words chapters cfg =
        some (((chapters.filter (fun ch =>
            decide (cfg.clip_min_duration ≤ ch.end_time - ch.start_time ∧
                    ch.end_time - ch.start_time ≤ cfg.clip_max_duration))).take
          cfg.max_clips_per_video).map (fun ch =>
            { start := ch.start_time, stop := ch.end_time, score := 1,
              reason := s2l "Chapter: " ++ ch.title.take 40 })) := by
  intro times rms scenes words
  have hlen : cfg.max_clips_per_video ≤ (chapterClipsOf chapters cfg).length := by
    simpa [chapterClipsOf] using hcnt
  have hne : chapters ≠ [] := by
    intro h
    subst h
    simp at hcnt
    omega
  rw [find_highlights, if_pos ⟨hne, hlen⟩]
  simp [chapterClipsOf, List.map_take]

/-- Witness for C6: three chapters of valid duration and
max_clips_per_video = 2 yield exactly the first two chapters, in order,
both with score 1. -/
theorem C6_witness :
    find_highlights [] [] [] []
        [⟨s2l "intro", 0, 20⟩, ⟨s2l "mid", 25, 50⟩, ⟨s2l "outro", 60, 90⟩]
        { cfgC2 with clip_max_duration := 60 } =
      some [⟨0, 20, 1, s2l "Chapter: intro"⟩, ⟨25, 50, 1, s2l "Chapter: mid"⟩] := by
  have h := C6_chapter_fast_path
    [⟨s2l "intro", 0, 20⟩, ⟨s2l "mid", 25, 50⟩, ⟨s2l "outro", 60, 90⟩]
    { cfgC2 with clip_max_duration := 60 }
    (by norm_num [cfgC2]) (by with_unfolding_all decide) [] [] [] []
  rw [h]
  with_unfolding_all rfl

theorem foldl_max_const {v : ℚ} : ∀ {xs : List ℚ}, (∀ x ∈ xs, x = v) →
    xs.foldl max v = v := by
  intro xs
  induction xs with
  | nil => intro _; rfl
  | cons y ys ih =>
    intro h
    have hy : y = v := h y (List.mem_cons_self y ys)
    simp only [List.foldl_cons, hy, max_self]
    exact ih (fun x hx => h x (List.mem_cons_of_mem y hx))

theorem foldl_min_const {v : ℚ} : ∀ {xs : List ℚ}, (∀ x ∈ xs, x = v) →
    xs.foldl min v = v := by
  intro xs
  induction xs with
  | nil => intro _; rfl
  | cons y ys ih =>
    intro h
    have hy : y = v := h y (List.mem_cons_self y ys)
    simp only [List.foldl_cons, hy, min_self]
    exact ih (fun x hx => h x (List.mem_cons_of_mem y hx))

theorem globalMaxRms_flat {v : ℚ} {rms : List ℚ} (hne : rms ≠ [])
    (hflat : ∀ x ∈ rms, x = v) : globalMaxRms rms = v := by
  cases rms with
  | nil => exact absurd rfl hne
  | cons x xs =>
    have hx : x = v := hflat x (List.mem_cons_self x xs)
    simp only [globalMaxRms, hx]
    exact foldl_max_const (fun y hy => hflat y (List.mem_cons_of_mem x hy))

theorem globalMinRms_flat {v : ℚ} {rms : List ℚ} (hne : rms ≠ [])
    (hflat : ∀ x ∈ rms, x = v) : globalMinRms rms = v := by
  cases rms with
  | nil => exact absurd rfl hne
  | cons x xs =>
    have hx : x = v := hflat x (List.mem_cons_self x xs)
    simp only [globalMinRms, hx]
    exact foldl_min_const (fun y hy => hflat y (List.mem_cons_of_mem x hy))

theorem rmsRange_flat {v : ℚ} {rms : List ℚ} (hne : rms ≠ [])
    (hflat : ∀ x ∈ rms, x = v) : rmsRange rms = 1 := by
  simp [rmsRange, globalMaxRms_flat hne hflat, globalMinRms_flat hne hflat]

theorem energyScore_flat {v : ℚ} {times rms : List ℚ} (hne : rms ≠ [])
    (hflat : ∀ x ∈ rms, x = v) (pos stop : ℚ) :
    energyScore times rms pos stop = 0 := by
  simp only [energyScore]
  split
  · rfl
  · split
    · rfl
    · rename_i hw
      rw [div_eq_zero_iff]
      left
      apply List.sum_eq_zero
      intro x hx
      simp only [List.mem_map] at hx
      obtain ⟨r, hr, rfl⟩ := hx
      obtain ⟨tr, htr, rfl⟩ := hr
      have : tr.2 ∈ rms := (List.of_mem_zip (List.mem_filter.mp htr).1).2
      rw [hflat tr.2 this, globalMinRms_flat hne hflat, rmsRange_flat hne hflat]
      simp

theorem mem_scanFrom {f : ℚ → ClipCandidate} {size d : ℚ} {c : ClipCandidate} :
    ∀ {fuel : ℕ} {pos : ℚ}, c ∈ scanFrom f size d fuel pos → ∃ q, c = f q := by
  intro fuel
  induction fuel with
  | zero => intro pos h; simp [scanFrom] at h
  | succ n ih =>
    intro pos h
    simp only [scanFrom] at h
    split at h
    · rcases List.mem_cons.mp h with h' | h'
      · exact ⟨pos, h'⟩
      · exact ih h'
    · simp at h

/-- C7: with a non-empty flat (constant) energy curve, no words and no
scene cuts, the zero rms range is replaced by 1 before any division
(rmsRange = 1), the energy score of every window is exactly 0, and every
candidate generated by _score_windows has combined score 0. -/
theorem C7_flat_energy_guard (times rms : List ℚ) (v : ℚ)
    (hne : rms ≠ []) (hflat : ∀ x ∈ rms, x = v)
    (d : ℚ) (pk : List ℚ) (mn mx : ℚ) (cfg : Config) :
    rmsRange rms = 1 ∧
    (∀ pos stop, energyScore times rms pos stop = 0) ∧
    (∀ c ∈ _score_windows d pk [] [] times rms mn mx cfg, c.score = 0) := by
  refine ⟨rmsRange_flat hne hflat, energyScore_flat hne hflat, ?_⟩
  intro c hc
  simp only [_score_windows, List.mem_flatMap] at hc
  obtain ⟨size, _, hmem⟩ := hc
  obtain ⟨q, rfl⟩ := mem_scanFrom hmem
  simp only [mkWindowCandidate, energyScore_flat hne hflat, kwRawScore,
    sceneScore, List.foldl_nil, List.filter_nil, List.length_nil]
  norm_num

/-- Witness for C7: the flat curve rms = [7, 7] over times [0, 1]: the rms
range guard yields 1, a sample window has energy score 0, and the first
candidate of a concrete scan has score 0. -/
theorem C7_witness :
    rmsRange [7, 7] = 1 ∧ energyScore [0, 1] [7, 7] 0 15 = 0 := by
  have h := C7_flat_energy_guard [0, 1] [7, 7] 7 (by simp)
    (by with_unfolding_all decide) 20 [] 15 60 cfgDefault
  exact ⟨h.1, h.2.1 0 15⟩

/-- C8 counterexample: with min = 15 and max = 60 the scanned window sizes
are [15, 37, 60] because of the floor division (min + max) // 2, not the
exact midpoint 37.5; on a duration of 37.5 the scan produces a window of
duration 37 and no window of duration 37.5. -/
theorem C8_counterexample :
    windowSizes 15 60 = [15, 37, 60] ∧
    (_score_windows (75/2) [] [] [] [] [] 15 60 cfgDefault).map
        (fun c => c.stop - c.start) = [15, 15, 15, 15, 15, 37] ∧
    (37 : ℚ) ≠ (15 + 60) / 2 := by
  refine ⟨by with_unfolding_all rfl, by with_unfolding_all rfl, by norm_num⟩

theorem stepsFrom_succ {size d pos : ℚ} (h : pos + size ≤ d) :
    stepsFrom size d pos = stepsFrom size d (pos + 5) + 1 := by
  have hx : (0 : ℚ) ≤ d - size - pos := by linarith
  by_cases h5 : pos + 5 + size ≤ d
  · have hfl : ⌊(d - size - (pos + 5)) / 5⌋ = ⌊(d - size - pos) / 5⌋ - 1 := by
      have he : (d - size - (pos + 5)) / 5 = (d - size - pos) / 5 - 1 := by ring
      rw [he, Int.floor_sub_one]
    have h1 : (1 : ℤ) ≤ ⌊(d - size - pos) / 5⌋ := by
      apply Int.le_floor.mpr
      push_cast
      rw [le_div_iff (by norm_num : (0:ℚ) < 5)]
      linarith
    simp only [stepsFrom, if_pos h, if_pos h5, hfl]
    omega
  · have hfl : ⌊(d - size - pos) / 5⌋ = 0 := by
      rw [Int.floor_eq_zero_iff]
      constructor
      · positivity
      · rw [div_lt_one (by norm_num : (0:ℚ) < 5)]
        linarith
    simp only [stepsFrom, if_pos h, if_neg h5, hfl]
    rfl

theorem scanFrom_eq_range (f : ℚ → ClipCandidate) (size d : ℚ) :
    ∀ (fuel : ℕ) (pos : ℚ), stepsFrom size d pos ≤ fuel →
      scanFrom f size d fuel pos =
        (List.range (stepsFrom size d pos)).map (fun (k : ℕ) => f (pos + 5 * (k : ℚ))) := by
  intro fuel
  induction fuel with
  | zero =>
    intro pos hle
    rw [Nat.le_zero.mp hle]
    rfl
  | succ n ih =>
    intro pos hle
    by_cases h : pos + size ≤ d
    · have hsucc := @stepsFrom_succ size d pos h
      rw [hsucc] at hle ⊢
      simp only [scanFrom, if_pos h]
      rw [List.range_succ_eq_map, List.map_cons, List.map_map,
        ih (pos + 5) (Nat.lt_succ_iff.mp (Nat.lt_of_lt_of_le (Nat.lt_succ_self _) hle))]
      refine congrArg₂ List.cons ?_ ?_
      · congr 1
        push_cast
        ring
      · apply List.map_congr_left
        intro k _
        simp only [Function.comp_apply]
        congr 1
        push_cast
        ring
    · have hz : stepsFrom size d pos = 0 := by simp [stepsFrom, if_neg h]
      rw [hz]
      simp [scanFrom, if_neg h]

theorem stepsFrom_le_fuelFor (size d : ℚ) : stepsFrom size d 0 ≤ fuelFor size d := by
  simp only [stepsFrom, fuelFor]
  split
  · rename_i h
    have hx : (0 : ℚ) ≤ d - size := by linarith
    have h1 : ⌊(d - size - 0) / 5⌋ ≤ ⌈d - size⌉ := by
      rw [sub_zero]
      calc ⌊(d - size) / 5⌋ ≤ ⌊d - size⌋ :=
            Int.floor_le_floor (div_le_self hx (by norm_num))
        _ ≤ ⌈d - size⌉ := Int.floor_le_ceil _
    have h0 : (0 : ℤ) ≤ ⌊(d - size - 0) / 5⌋ := by
      apply Int.floor_nonneg.mpr
      rw [sub_zero]
      positivity
    omega
  · exact Nat.zero_le _

theorem stepsFrom_zero (size d : ℚ) : stepsFrom size d 0 = specNumSteps size d := by
  simp [stepsFrom, specNumSteps]

/-- C8 amended: _score_windows scans exactly the three window sizes
clip_min_duration, the floor (min + max) // 2 of the midpoint (not the
exact midpoint, per the counterexample), and clip_max_duration, in that
order, and for each size scores the start positions 0, 5, 10, ... for as
long as the whole window fits within the total duration: it equals the
closed-form scan specScoreWindows. -/
theorem C8_window_scan_structure (d : ℚ) (pk : List ℚ)
    (kw : List (ℚ × ℚ × ℚ)) (sc times rms : List ℚ) (mn mx : ℚ) (cfg : Config) :
    _score_windows d pk kw sc times rms mn mx cfg =
      specScoreWindows d kw sc times rms mn mx cfg := by
  simp only [_score_windows, specScoreWindows]
  congr 1
  funext size
  rw [scanFrom_eq_range _ size d (fuelFor size d) 0 (stepsFrom_le_fuelFor size d)]
  simp only [specPositions, ← stepsFrom_zero, List.map_map]
  apply List.map_congr_left
  intro k _
  simp only [Function.comp_apply, zero_add]

/-- C10 counterexample: the multi-word keyword "no way" (which contains an
internal space, code point 32) does match a transcript word whose own text
is the two-word string "no way", and a keyword window is produced. -/
theorem C10_counterexample :
    (32 ∈ s2l "no way") ∧
    score_transcript_keywords [⟨s2l "no way", 0, 1⟩, ⟨s2l "x", 1, 2⟩]
      [s2l "no way"] = [(0, 1, 1)] := by
  constructor
  · with_unfolding_all decide
  · with_unfolding_all rfl

theorem mem_pyStrip {chars : List Nat} {s : PyStr} {c : Nat}
    (h : c ∈ pyStrip chars s) : c ∈ s := by
  simp only [pyStrip] at h
  rw [List.mem_reverse] at h
  have h1 := (List.dropWhile_sublist _).subset h
  rw [List.mem_reverse] at h1
  exact (List.dropWhile_sublist _).subset h1

theorem pyLowerChar_ws {b : Nat} (h : pyLowerChar b ∈ wsChars) : b ∈ wsChars := by
  simp only [pyLowerChar] at h
  split at h
  · rename_i hb
    simp only [wsChars, List.mem_cons, List.not_mem_nil, or_false] at h
    omega
  · exact h

/-- C10 amended: score_transcript_keywords compares each single transcript
word (lower-cased, punctuation-stripped) against the keyword set, so a
keyword whose normalized form still contains whitespace can only match a
transcript word whose own text contains whitespace. For every word list in
which no word text contains a whitespace character, such a keyword matches
no word, and with it as the only configured keyword no keyword window is
produced. (A transcript word whose text is itself the multi-word phrase
does match, as the counterexample shows.) -/
theorem C10_whitespace_keyword_no_match (kw : PyStr) (words : List Word)
    (hkw : ∃ c ∈ normKeyword kw, c ∈ wsChars)
    (hw : ∀ w ∈ words, ∀ c ∈ w.word, c ∉ wsChars) :
    (∀ w ∈ words, normWord w.word ≠ normKeyword kw) ∧
    score_transcript_keywords words [kw] = [] := by
  have hmain : ∀ w ∈ words, normWord w.word ≠ normKeyword kw := by
    intro w hwmem heq
    obtain ⟨c, hc1, hc2⟩ := hkw
    rw [← heq] at hc1
    have hc3 : c ∈ pyLower w.word := mem_pyStrip hc1
    obtain ⟨b, hb1, rfl⟩ := List.mem_map.mp hc3
    exact hw w hwmem b hb1 (pyLowerChar_ws hc2)
  refine ⟨hmain, ?_⟩
  simp only [score_transcript_keywords]
  split
  · rfl
  · rw [List.filterMap_eq_nil_iff]
    intro iw hiw
    have hw2 : iw.2 ∈ words := (List.of_mem_zip hiw).2
    have hnm : ¬(normWord iw.2.word ∈ List.map normKeyword [kw]) := by
      simp only [List.map_cons, List.map_nil, List.mem_singleton]
      exact hmain iw.2 hw2
    rw [if_neg hnm]

/-- Witness for C10 amended: "no way" normalizes with an internal space,
the word list [hello] is whitespace-free, and no keyword window results. -/
theorem C10_witness :
    score_transcript_keywords [⟨s2l "hello", 0, 1⟩] [s2l "no way"] = [] :=
  (C10_whitespace_keyword_no_match (s2l "no way") [⟨s2l "hello", 0, 1⟩]
    (by exact ⟨32, by with_unfolding_all decide, by with_unfolding_all decide⟩)
    (by with_unfolding_all decide)).2
